import Mathlib

/-!
Shallow embedding of the admission-control / batch-submission core of the
CN_docs_segmentation repository, together with proofs of its specified
properties.

The embedding covers:
* `src/batch_itemizer.py` — `SegmentationBatchManager`: the capacity-aware
  greedy batch builder (`submit_new_batch`) and the in-flight batch tracker
  (`get_current_queue_size`);
* `src/retrieve_batches.py` — `BatchResultManager`: discovery of completed
  batches (`get_new_completed_batches`), per-batch result parsing
  (`process_batch_result`) and the merge step (`run`, here `runReconciler`).

Modelling conventions.  A source file in the catalog is represented by the
outcome of reading and tokenizing it: `some c` means the file was read and
its `<line #>`-prefixed content encodes to `c` tokens; `none` means
`open`/`readlines`/`encode` raised (the `except` branch of the scan loop).
The tiktoken encoder is the opaque cost estimator of the design, so only
the resulting token counts appear.  Python `dict`s keyed by strings are
association lists with Python's assignment semantics (`dictInsert`:
overwrite in place if the key is present, append otherwise); Python `set`s
of strings are duplicate-free lists built with `setAdd`.  External-service
calls are oracles passed in as functions: a status query returns
`Option String` (`none` models a raised exception) and a result download
returns a `FetchOutcome`.
-/

namespace CNDocsSeg

/-- Python `dict` assignment `m[k] = v`: replace the value in place when the
key is present, append the pair otherwise (insertion order preserved). -/
def dictInsert {α : Type} (m : List (String × α)) (k : String) (v : α) :
    List (String × α) :=
  if m.any (fun p => p.1 == k) then
    m.map (fun p => if p.1 == k then (k, v) else p)
  else
    m ++ [(k, v)]

/-- Python `dict.update`: insert every pair of `new` in order. -/
def dictUpdate {α : Type} (m new : List (String × α)) : List (String × α) :=
  new.foldl (fun acc p => dictInsert acc p.1 p.2) m

/-- Python `dict` lookup `m.get(k)`. -/
def dictLookup {α : Type} (m : List (String × α)) (k : String) : Option α :=
  (m.find? (fun p => p.1 == k)).map Prod.snd

/-- Python `set.add`. -/
def setAdd (s : List String) (x : String) : List String :=
  if s.contains x then s else s ++ [x]

/-! ## `src/batch_itemizer.py` : `SegmentationBatchManager` -/

/-- One value of the `active_batches` map: the record stored at
`self.state["active_batches"][batch_obj.id] = {...}` (line 271). -/
structure BatchRecord where
  status : String
  submitted_at : Nat
  input_file_id : String
  total_tokens : Nat
  file_count : Nat
deriving DecidableEq

/-- The persisted submission state (`self.state`, lines 111-116).
`source_files` holds each file's read/encode outcome (see the header). -/
structure ManagerState where
  last_file_submitted_index : Int
  active_batches : List (String × BatchRecord)
  source_files : List (Option Nat)
  all_files_submitted : Bool
deriving DecidableEq

/-- The statuses counted as in flight (line 185). -/
def activeStatuses : List String := ["validating", "in_progress", "finalizing"]

/-- The statuses treated as finished (line 187). -/
def terminalStatuses : List String := ["completed", "failed", "cancelled", "expired"]

/-- `get_current_queue_size` (lines 172-195): walk the `active_batches`
entries; `query id = some s` models a successful `client.batches.retrieve`
returning status `s`, `query id = none` models the call raising.  An active
record keeps counting and stores the refreshed status; a terminal record is
deleted; on a failed query the record is kept as is and its committed
`total_tokens` still counts (line 192).  Returns the updated map and the
total. -/
def get_current_queue_size (query : String → Option String) :
    List (String × BatchRecord) → List (String × BatchRecord) × Nat
  | [] => ([], 0)
  | (batch_id, rec) :: rest =>
    let r := get_current_queue_size query rest
    match query batch_id with
    | some status =>
      if status ∈ activeStatuses then
        ((batch_id, { rec with status := status }) :: r.1, rec.total_tokens + r.2)
      else if status ∈ terminalStatuses then
        (r.1, r.2)
      else
        ((batch_id, { rec with status := status }) :: r.1, r.2)
    | none => ((batch_id, rec) :: r.1, rec.total_tokens + r.2)

/-- Result of the scanning loop of `submit_new_batch` (lines 211-233). -/
structure ScanResult where
  files_for_batch : List Nat
  batch_total_tokens : Nat
  last_file_index_in_batch : Int
  all_submitted : Bool
deriving DecidableEq

/-- The `for i in range(start_index, len(source_files))` loop of
`submit_new_batch` (lines 212-233), recursing over the remaining suffix of
`source_files` while `i` tracks the absolute index of its head.
`files_for_batch` records the indices of the files placed in the batch.
A readable file (`some content_tokens`) is packed unless it would overflow
`cap` or the batch already holds `maxFiles` items, in which case the loop
breaks (leaving the `for`'s `else` clause unexecuted, hence
`all_submitted = false`); an unreadable file (`none`, the `except` branch)
only advances `last_file_index_in_batch`.  Falling off the end runs the
`for`-`else`, hence `all_submitted = true`. -/
def scanFiles (sys cap maxFiles : Nat) :
    List (Option Nat) → Nat → List Nat → Nat → Int → ScanResult
  | [], _, files_for_batch, batch_total, last_idx =>
    ⟨files_for_batch, batch_total, last_idx, true⟩
  | f :: rest, i, files_for_batch, batch_total, last_idx =>
    match f with
    | some content_tokens =>
      let request_tokens := sys + content_tokens
      if batch_total + request_tokens > cap ∨ files_for_batch.length ≥ maxFiles then
        ⟨files_for_batch, batch_total, last_idx, false⟩
      else
        scanFiles sys cap maxFiles rest (i + 1) (files_for_batch ++ [i])
          (batch_total + request_tokens) (i : Int)
    | none => scanFiles sys cap maxFiles rest (i + 1) files_for_batch batch_total (i : Int)

/-- What `submit_new_batch` produces: the updated manager state and the
list of catalog indices written into the submitted batch input file. -/
structure SubmitResult where
  state : ManagerState
  batch : List Nat
deriving DecidableEq

/-- `submit_new_batch(available_token_capacity)` (lines 197-279).
`sys` is `system_prompt_tokens`, `cap` the available capacity, `maxFiles`
the `MAX_FILES_PER_BATCH` cap.  The service interaction is abstracted by
`submit_ok` (whether the upload/`batches.create` calls succeed),
`new_batch_id`/`created_status` (the returned handle and status),
`uploaded_file_id` and `now`.  The scanned cursor is committed to the state
(line 235) before submission is attempted; on submission failure the error
is only logged (line 279), so the state keeps the advanced cursor and no
batch record is added. -/
def submit_new_batch (sys cap maxFiles : Nat) (st : ManagerState)
    (submit_ok : Bool) (new_batch_id created_status uploaded_file_id : String)
    (now : Nat) : SubmitResult :=
  if st.all_files_submitted then ⟨st, []⟩
  else
    let start_index := (st.last_file_submitted_index + 1).toNat
    let scan := scanFiles sys cap maxFiles (st.source_files.drop start_index)
      start_index [] 0 st.last_file_submitted_index
    let st1 : ManagerState :=
      { st with
        all_files_submitted := scan.all_submitted,
        last_file_submitted_index := scan.last_file_index_in_batch }
    if scan.files_for_batch.isEmpty then ⟨st1, []⟩
    else if submit_ok then
      ⟨{ st1 with
          active_batches := dictInsert st1.active_batches new_batch_id
            { status := created_status, submitted_at := now,
              input_file_id := uploaded_file_id,
              total_tokens := scan.batch_total_tokens,
              file_count := scan.files_for_batch.length } },
        scan.files_for_batch⟩
    else ⟨st1, scan.files_for_batch⟩

/-- The cost charged for placing catalog item `f` in a batch:
`system_prompt_tokens + len(encoder.encode(prefixed_content))` (line 220). -/
def itemCost (sys : Nat) (f : Option Nat) : Nat := sys + f.getD 0

/-! ## `src/retrieve_batches.py` : `BatchResultManager` -/

/-- One line of a downloaded batch result file, after parsing: `ok` carries
the `custom_id` and the decoded structured payload; `malformed` is a line
dropped by the `continue`/`except` branches (lines 131-132, 142-143). -/
inductive LineResult (α : Type) where
  | ok (custom_id : String) (payload : α)
  | malformed
deriving DecidableEq

/-- Outcome of fetching a completed batch's output: the batch object has no
`output_file_id` (line 111), the download raised (line 147), or it yielded
a sequence of result lines. -/
inductive FetchOutcome (α : Type) where
  | noOutputFile
  | fetchError
  | content (lines : List (LineResult α))
deriving DecidableEq

/-- The external service as seen by `BatchResultManager`: a status query
(`none` = the retrieve call raised, line 100) and a result fetch. -/
structure ReconEnv (α : Type) where
  status : String → Option String
  fetch : String → FetchOutcome α

/-- The merged result store (`merged_segmentation_results.json`,
lines 173-185). -/
structure ResultStore (α : Type) where
  results : List (String × α)
  last_updated : Nat
  total_files_processed : Nat
deriving DecidableEq

/-- `get_new_completed_batches` (lines 58-104): from the handles found in
the submission state's `active_batches`, keep those not already in
`processed_batch_ids` whose status query succeeds with `'completed'`. -/
def get_new_completed_batches {α : Type} (env : ReconEnv α)
    (ids processed : List String) : List String :=
  ids.filter (fun id => !processed.contains id && env.status id == some "completed")

/-- `process_batch_result` (lines 106-149): an absent output file or a
failed download yields `{}`; otherwise the parsed `ok` lines are folded
into a dict keyed by `custom_id`. -/
def process_batch_result {α : Type} (env : ReconEnv α) (batch_id : String) :
    List (String × α) :=
  match env.fetch batch_id with
  | .noOutputFile => []
  | .fetchError => []
  | .content lines =>
    lines.foldl
      (fun results l =>
        match l with
        | .ok custom_id payload => dictInsert results custom_id payload
        | .malformed => results)
      []

/-- One iteration of the `for batch in new_batches` loop of `run`
(lines 161-166): merge the batch's parsed results into `all_new_results`
and add its handle to `processed_batch_ids`. -/
def reconStep {α : Type} (env : ReconEnv α)
    (acc : List (String × α) × List String) (b : String) :
    List (String × α) × List String :=
  (dictUpdate acc.1 (process_batch_result env b), setAdd acc.2 b)

/-- `BatchResultManager.run` (lines 151-193): gather the new completed
batches; if none, return unchanged.  Otherwise, for each batch in order,
merge its parsed results into `all_new_results` and add its handle to
`processed_batch_ids` (line 165 — unconditionally, even when the fetch
failed).  If nothing was collected, the store is left untouched; otherwise
the accumulated results are merged into the store (last writer wins) and
its metadata refreshed. -/
def runReconciler {α : Type} (env : ReconEnv α) (now : Nat) (ids : List String)
    (processed : List String) (store : ResultStore α) :
    List String × ResultStore α :=
  let new_batches := get_new_completed_batches env ids processed
  if new_batches.isEmpty then (processed, store)
  else
    let folded := new_batches.foldl (reconStep env) ([], processed)
    if folded.1.isEmpty then (folded.2, store)
    else
      let results' := dictUpdate store.results folded.1
      (folded.2,
        { results := results', last_updated := now,
          total_files_processed := results'.length })

/-! ## Basic facts about the scanning loop -/

theorem int_lt_toNat_succ (a : Int) : a < (((a + 1).toNat : Nat) : Int) := by
  omega

theorem toNat_succ_le {a : Int} {j : Nat} (h : a < (j : Int)) :
    (a + 1).toNat ≤ j := by
  omega

theorem drop_cons_eq {full : List (Option Nat)} :
    ∀ {i : Nat} {f : Option Nat} {rest : List (Option Nat)},
      full.drop i = f :: rest →
      full.getD i none = f ∧ full.drop (i + 1) = rest := by
  induction full with
  | nil => intro i f rest h; simp at h
  | cons a t ih =>
    intro i f rest h
    cases i with
    | zero =>
      simp only [List.drop_zero] at h
      cases h
      simp
    | succ n =>
      simp only [List.drop_succ_cons] at h
      simpa only [List.getD_cons_succ, List.drop_succ_cons] using ih h

theorem drop_nil_length_le {full : List (Option Nat)} :
    ∀ {i : Nat}, full.drop i = [] → full.length ≤ i := by
  induction full with
  | nil => intro i _; simp
  | cons a t ih =>
    intro i h
    cases i with
    | zero => simp at h
    | succ n =>
      simp only [List.drop_succ_cons] at h
      simpa using Nat.succ_le_succ (ih h)

/-- The provisional cursor never moves backwards during a scan. -/
theorem scan_last_mono (sys cap maxFiles : Nat) :
    ∀ (l : List (Option Nat)) (i : Nat) (acc : List Nat) (total : Nat) (last : Int),
      last < (i : Int) →
      last ≤ (scanFiles sys cap maxFiles l i acc total last).last_file_index_in_batch := by
  intro l
  induction l with
  | nil =>
    intro i acc total last h
    simp [scanFiles]
  | cons f rest ih =>
    intro i acc total last h
    cases f with
    | some c =>
      simp only [scanFiles]
      split
      · exact le_refl last
      · exact le_trans (le_of_lt h)
          (ih (i + 1) (acc ++ [i]) _ (i : Int) (by omega))
    | none =>
      exact le_trans (le_of_lt h)
        (ih (i + 1) acc total (i : Int) (by omega))

/-- A scan only ever appends to the batch built so far. -/
theorem scan_acc_extends (sys cap maxFiles : Nat) :
    ∀ (l : List (Option Nat)) (i : Nat) (acc : List Nat) (total : Nat) (last : Int),
      ∃ t, (scanFiles sys cap maxFiles l i acc total last).files_for_batch = acc ++ t := by
  intro l
  induction l with
  | nil => intro i acc total last; exact ⟨[], by simp [scanFiles]⟩
  | cons f rest ih =>
    intro i acc total last
    cases f with
    | some c =>
      simp only [scanFiles]
      split
      · exact ⟨[], by simp⟩
      · obtain ⟨t, ht⟩ := ih (i + 1) (acc ++ [i]) _ (i : Int)
        exact ⟨i :: t, by simpa [List.append_assoc] using ht⟩
    | none => exact ih (i + 1) acc total (i : Int)

/-- Every index the scan places in the batch either was already there or
lies between the scan's start and the final provisional cursor. -/
theorem scan_mem (sys cap maxFiles : Nat) :
    ∀ (l : List (Option Nat)) (i : Nat) (acc : List Nat) (total : Nat) (last : Int),
      last < (i : Int) →
      ∀ j ∈ (scanFiles sys cap maxFiles l i acc total last).files_for_batch,
        j ∈ acc ∨ (i ≤ j ∧
          (j : Int) ≤ (scanFiles sys cap maxFiles l i acc total last).last_file_index_in_batch) := by
  intro l
  induction l with
  | nil =>
    intro i acc total last _ j hj
    simp [scanFiles] at hj
    exact Or.inl hj
  | cons f rest ih =>
    intro i acc total last h j hj
    cases f with
    | some c =>
      simp only [scanFiles] at hj ⊢
      split at hj
      · rename_i hcond
        simp only [if_pos hcond] at hj ⊢
        exact Or.inl hj
      · rename_i hcond
        simp only [if_neg hcond] at hj ⊢
        have hstep : (i : Int) < ((i + 1 : Nat) : Int) := by exact_mod_cast Nat.lt_succ_self i
        rcases ih (i + 1) (acc ++ [i]) _ (i : Int) hstep j hj with hin | ⟨h1, h2⟩
        · rcases List.mem_append.1 hin with hin' | hin'
          · exact Or.inl hin'
          · have : j = i := by simpa using hin'
            subst this
            refine Or.inr ⟨le_refl j, ?_⟩
            exact scan_last_mono sys cap maxFiles rest (j + 1) (acc ++ [j]) _ (j : Int) hstep
        · exact Or.inr ⟨Nat.le_of_succ_le h1, h2⟩
    | none =>
      simp only [scanFiles] at hj ⊢
      have hstep : (i : Int) < ((i + 1 : Nat) : Int) := by exact_mod_cast Nat.lt_succ_self i
      rcases ih (i + 1) acc total (i : Int) hstep j hj with hin | ⟨h1, h2⟩
      · exact Or.inl hin
      · exact Or.inr ⟨Nat.le_of_succ_le h1, h2⟩

/-- The scan's running token total is the sum of the costs of the placed
items and never exceeds the available capacity. -/
theorem scan_sum (sys cap maxFiles : Nat) (full : List (Option Nat)) :
    ∀ (l : List (Option Nat)) (i : Nat) (acc : List Nat) (total : Nat) (last : Int),
      l = full.drop i →
      total = (acc.map (fun j => itemCost sys (full.getD j none))).sum →
      total ≤ cap →
      (scanFiles sys cap maxFiles l i acc total last).batch_total_tokens
          = ((scanFiles sys cap maxFiles l i acc total last).files_for_batch.map
              (fun j => itemCost sys (full.getD j none))).sum
        ∧ (scanFiles sys cap maxFiles l i acc total last).batch_total_tokens ≤ cap := by
  intro l
  induction l with
  | nil =>
    intro i acc total last _ hsum hle
    exact ⟨by simpa [scanFiles] using hsum, by simpa [scanFiles] using hle⟩
  | cons f rest ih =>
    intro i acc total last hl hsum hle
    obtain ⟨hget, hrest⟩ := drop_cons_eq hl.symm
    cases f with
    | some c =>
      by_cases hcond : total + (sys + c) > cap ∨ acc.length ≥ maxFiles
      · simp only [scanFiles, if_pos hcond]
        exact ⟨hsum, hle⟩
      · simp only [scanFiles, if_neg hcond]
        push_neg at hcond
        refine ih (i + 1) (acc ++ [i]) _ (i : Int) hrest.symm ?_ hcond.1
        rw [List.map_append, List.sum_append]
        simp only [List.map_cons, List.map_nil, List.sum_cons, List.sum_nil,
          itemCost, hget, Option.getD_some] at hsum ⊢
        omega
    | none =>
      exact ih (i + 1) acc total (i : Int) hrest.symm hsum hle

/-- Every index the scan places in the batch (beyond those already there)
is a readable item of the catalog. -/
theorem scan_readable_mem (sys cap maxFiles : Nat) (full : List (Option Nat)) :
    ∀ (l : List (Option Nat)) (i : Nat) (acc : List Nat) (total : Nat) (last : Int),
      l = full.drop i →
      ∀ j ∈ (scanFiles sys cap maxFiles l i acc total last).files_for_batch,
        j ∈ acc ∨ full.getD j none ≠ none := by
  intro l
  induction l with
  | nil =>
    intro i acc total last _ j hj
    simp [scanFiles] at hj
    exact Or.inl hj
  | cons f rest ih =>
    intro i acc total last hl j hj
    obtain ⟨hget, hrest⟩ := drop_cons_eq hl.symm
    cases f with
    | some c =>
      by_cases hcond : total + (sys + c) > cap ∨ acc.length ≥ maxFiles
      · simp only [scanFiles, if_pos hcond] at hj
        exact Or.inl hj
      · simp only [scanFiles, if_neg hcond] at hj
        rcases ih (i + 1) (acc ++ [i]) _ (i : Int) hrest.symm j hj with hin | hne
        · rcases List.mem_append.1 hin with hin' | hin'
          · exact Or.inl hin'
          · have hji : j = i := by simpa using hin'
            subst hji
            refine Or.inr ?_
            rw [hget]
            simp
        · exact Or.inr hne
    | none =>
      exact ih (i + 1) acc total (i : Int) hrest.symm j hj

/-- If a scan placed nothing new in the batch, every index it consumed
(everything between its start and its final provisional cursor) was an
unreadable item. -/
theorem scan_empty_skipped (sys cap maxFiles : Nat) (full : List (Option Nat)) :
    ∀ (l : List (Option Nat)) (i : Nat) (acc : List Nat) (total : Nat) (last : Int),
      l = full.drop i →
      last < (i : Int) →
      (scanFiles sys cap maxFiles l i acc total last).files_for_batch = acc →
      ∀ j : Nat, i ≤ j →
        (j : Int) ≤ (scanFiles sys cap maxFiles l i acc total last).last_file_index_in_batch →
        full.getD j none = none := by
  intro l
  induction l with
  | nil =>
    intro i acc total last _ hlast _ j hij hjle
    simp only [scanFiles] at hjle
    omega
  | cons f rest ih =>
    intro i acc total last hl hlast hacc j hij hjle
    obtain ⟨hget, hrest⟩ := drop_cons_eq hl.symm
    cases f with
    | some c =>
      by_cases hcond : total + (sys + c) > cap ∨ acc.length ≥ maxFiles
      · simp only [scanFiles, if_pos hcond] at hjle
        omega
      · simp only [scanFiles, if_neg hcond] at hacc hjle
        exfalso
        obtain ⟨t, ht⟩ := scan_acc_extends sys cap maxFiles rest (i + 1) (acc ++ [i]) _ (i : Int)
        rw [ht] at hacc
        have hlen := congrArg List.length hacc
        simp [List.length_append] at hlen
    | none =>
      simp only [scanFiles] at hacc hjle
      rcases Nat.eq_or_lt_of_le hij with heq | hlt
      · subst heq; exact hget
      · exact ih (i + 1) acc total (i : Int) hrest.symm (by omega) hacc j hlt hjle

/-- A scan cannot stop just short of an unreadable catalog item: if the
final provisional cursor is at least `k - 1` for an unreadable index `k`
inside the scanned range, the scan skipped past `k` as well. -/
theorem scan_reaches_unreadable (sys cap maxFiles : Nat) (full : List (Option Nat)) (k : Nat)
    (hk_len : k < full.length) (hk_none : full.getD k none = none) :
    ∀ (l : List (Option Nat)) (i : Nat) (acc : List Nat) (total : Nat) (last : Int),
      l = full.drop i →
      last < (i : Int) →
      i ≤ k →
      (k : Int) - 1 ≤ (scanFiles sys cap maxFiles l i acc total last).last_file_index_in_batch →
      (k : Int) ≤ (scanFiles sys cap maxFiles l i acc total last).last_file_index_in_batch := by
  intro l
  induction l with
  | nil =>
    intro i acc total last hl _ hik _
    exfalso
    have := drop_nil_length_le hl.symm
    omega
  | cons f rest ih =>
    intro i acc total last hl hlast hik hreach
    obtain ⟨hget, hrest⟩ := drop_cons_eq hl.symm
    cases f with
    | some c =>
      simp only [scanFiles] at hreach ⊢
      split
      · rename_i hcond
        simp only [if_pos hcond] at hreach
        exfalso
        have hik' : i = k := by omega
        rw [hik'] at hget
        rw [hget] at hk_none
        exact Option.noConfusion hk_none
      · rename_i hcond
        simp only [if_neg hcond] at hreach
        have hik' : i ≠ k := by
          intro h
          rw [h] at hget
          rw [hget] at hk_none
          exact Option.noConfusion hk_none
        exact ih (i + 1) (acc ++ [i]) _ (i : Int) hrest.symm (by omega) (by omega) hreach
    | none =>
      simp only [scanFiles] at hreach ⊢
      rcases Nat.eq_or_lt_of_le hik with heq | hlt
      · subst heq
        exact scan_last_mono sys cap maxFiles rest (i + 1) acc total (i : Int) (by omega)
      · exact ih (i + 1) acc total (i : Int) hrest.symm (by omega) hlt hreach

/-! ## Facts about `submit_new_batch` -/

/-- The scan performed by one `submit_new_batch` call that is not a
no-op: start at `last_file_submitted_index + 1` with an empty batch and a
zero running total. -/
def buildScan (sys cap maxFiles : Nat) (st : ManagerState) : ScanResult :=
  scanFiles sys cap maxFiles
    (st.source_files.drop (st.last_file_submitted_index + 1).toNat)
    (st.last_file_submitted_index + 1).toNat [] 0 st.last_file_submitted_index

theorem submit_batch_eq (sys cap maxFiles : Nat) (st : ManagerState)
    (submit_ok : Bool) (bid cs fid : String) (now : Nat)
    (hns : st.all_files_submitted = false) :
    (submit_new_batch sys cap maxFiles st submit_ok bid cs fid now).batch
      = (buildScan sys cap maxFiles st).files_for_batch := by
  simp only [submit_new_batch, buildScan, hns, Bool.false_eq_true, if_false]
  split_ifs with h1 h2
  · exact (List.isEmpty_iff.mp h1).symm
  · rfl
  · rfl

theorem submit_last_eq (sys cap maxFiles : Nat) (st : ManagerState)
    (submit_ok : Bool) (bid cs fid : String) (now : Nat)
    (hns : st.all_files_submitted = false) :
    (submit_new_batch sys cap maxFiles st submit_ok bid cs fid now).state.last_file_submitted_index
      = (buildScan sys cap maxFiles st).last_file_index_in_batch := by
  simp only [submit_new_batch, buildScan, hns, Bool.false_eq_true, if_false]
  split_ifs <;> rfl

theorem submit_failed_active (sys cap maxFiles : Nat) (st : ManagerState)
    (bid cs fid : String) (now : Nat) :
    (submit_new_batch sys cap maxFiles st false bid cs fid now).state.active_batches
      = st.active_batches := by
  simp only [submit_new_batch]
  split_ifs with h1 h2 h3
  · rfl
  · rfl
  · exact h3.elim
  · rfl

/-- An unreadable catalog item is never placed in a built batch, whatever
the state of the cursor. -/
theorem unreadable_not_in_batch (sys cap maxFiles : Nat) (st : ManagerState)
    (submit_ok : Bool) (bid cs fid : String) (now : Nat) (k : Nat)
    (hk : st.source_files.getD k none = none) :
    k ∉ (submit_new_batch sys cap maxFiles st submit_ok bid cs fid now).batch := by
  by_cases hns : st.all_files_submitted
  · simp [submit_new_batch, hns]
  · rw [submit_batch_eq sys cap maxFiles st submit_ok bid cs fid now (by simpa using hns)]
    intro hmem
    unfold buildScan at hmem
    rcases scan_readable_mem sys cap maxFiles st.source_files _ _ [] 0
        st.last_file_submitted_index rfl k hmem with h | h
    · simp at h
    · exact h hk

/-! ## The claims -/

/-- C1: for every invocation of the batch builder (`submit_new_batch`)
with a catalog, a cursor and an available capacity, the sum of the
per-item costs (system-prompt cost plus estimated content cost) of all
items placed into the built batch never exceeds the available capacity
passed in. -/
theorem capacity_respect (sys cap maxFiles : Nat) (st : ManagerState)
    (submit_ok : Bool) (bid cs fid : String) (now : Nat) :
    (((submit_new_batch sys cap maxFiles st submit_ok bid cs fid now).batch).map
        (fun j => itemCost sys (st.source_files.getD j none))).sum ≤ cap := by
  by_cases hns : st.all_files_submitted
  · simp [submit_new_batch, hns]
  · rw [submit_batch_eq sys cap maxFiles st submit_ok bid cs fid now (by simpa using hns)]
    unfold buildScan
    have h := scan_sum sys cap maxFiles st.source_files
      (st.source_files.drop (st.last_file_submitted_index + 1).toNat)
      (st.last_file_submitted_index + 1).toNat [] 0 st.last_file_submitted_index
      rfl (by simp) (Nat.zero_le cap)
    rw [← h.1]
    exact h.2

/-- C2: for every invocation of the batch builder, the committed cursor is
greater than or equal to the cursor it was given, and every item placed in
the built batch sits at an index strictly beyond the prior cursor — no
index at or below the prior cursor is reconsidered. -/
theorem cursor_monotonicity (sys cap maxFiles : Nat) (st : ManagerState)
    (submit_ok : Bool) (bid cs fid : String) (now : Nat) :
    st.last_file_submitted_index
        ≤ (submit_new_batch sys cap maxFiles st submit_ok bid cs fid now).state.last_file_submitted_index
    ∧ ∀ j ∈ (submit_new_batch sys cap maxFiles st submit_ok bid cs fid now).batch,
        st.last_file_submitted_index < (j : Int) := by
  by_cases hns : st.all_files_submitted
  · constructor
    · simp [submit_new_batch, hns]
    · intro j hj
      simp [submit_new_batch, hns] at hj
  · have hns' : st.all_files_submitted = false := by simpa using hns
    constructor
    · rw [submit_last_eq sys cap maxFiles st submit_ok bid cs fid now hns']
      exact scan_last_mono sys cap maxFiles _ _ [] 0 st.last_file_submitted_index
        (int_lt_toNat_succ _)
    · intro j hj
      rw [submit_batch_eq sys cap maxFiles st submit_ok bid cs fid now hns'] at hj
      unfold buildScan at hj
      rcases scan_mem sys cap maxFiles _ _ [] 0 st.last_file_submitted_index
          (int_lt_toNat_succ _) j hj with h | ⟨h1, _⟩
      · simp at h
      · calc st.last_file_submitted_index
            < (((st.last_file_submitted_index + 1).toNat : Nat) : Int) := int_lt_toNat_succ _
          _ ≤ (j : Int) := by exact_mod_cast h1

/-- Concrete state used to check `cursor_monotonicity`. -/
def stv2 : ManagerState :=
  { last_file_submitted_index := -1, active_batches := [],
    source_files := [some 2, none, some 3], all_files_submitted := false }

theorem cursor_monotonicity_check :
    stv2.last_file_submitted_index
        ≤ (submit_new_batch 1 10 5 stv2 true "b1" "validating" "f1" 7).state.last_file_submitted_index
    ∧ ∀ j ∈ (submit_new_batch 1 10 5 stv2 true "b1" "validating" "f1" 7).batch,
        stv2.last_file_submitted_index < (j : Int) :=
  cursor_monotonicity 1 10 5 stv2 true "b1" "validating" "f1" 7

/-- A catalog whose first unprocessed item is unreadable and whose second
does not fit in a capacity of 10. -/
def stv4 : ManagerState :=
  { last_file_submitted_index := -1, active_batches := [],
    source_files := [none, some 100], all_files_submitted := false }

/-- C4 counterexample: the builder returns an empty batch, yet the cursor
it commits differs from the cursor it started from (-1), because the
unreadable item at index 0 was skipped. -/
theorem empty_batch_moves_cursor :
    (submit_new_batch 0 10 5 stv4 false "b1" "validating" "f1" 0).batch = []
    ∧ (submit_new_batch 0 10 5 stv4 false "b1" "validating" "f1" 0).state.last_file_submitted_index
        ≠ stv4.last_file_submitted_index := by
  decide

/-- C4 (amended): an invocation of the batch builder that returns an empty
batch commits a cursor that differs from the starting cursor only by
skipping unreadable items: every index strictly beyond the starting cursor
and at most the committed cursor is an item that failed to read.  (In
particular the cursor is unchanged whenever no read failure occurred.) -/
theorem empty_batch_cursor_skips_only_unreadable (sys cap maxFiles : Nat)
    (st : ManagerState) (submit_ok : Bool) (bid cs fid : String) (now : Nat)
    (hempty : (submit_new_batch sys cap maxFiles st submit_ok bid cs fid now).batch = []) :
    ∀ j : Nat, st.last_file_submitted_index < (j : Int) →
      (j : Int) ≤ (submit_new_batch sys cap maxFiles st submit_ok bid cs fid now).state.last_file_submitted_index →
      st.source_files.getD j none = none := by
  intro j hj1 hj2
  by_cases hns : st.all_files_submitted
  · exfalso
    simp [submit_new_batch, hns] at hj2
    omega
  · have hns' : st.all_files_submitted = false := by simpa using hns
    rw [submit_batch_eq sys cap maxFiles st submit_ok bid cs fid now hns'] at hempty
    rw [submit_last_eq sys cap maxFiles st submit_ok bid cs fid now hns'] at hj2
    unfold buildScan at hempty hj2
    exact scan_empty_skipped sys cap maxFiles st.source_files _ _ [] 0
      st.last_file_submitted_index rfl (int_lt_toNat_succ _) hempty j
      (toNat_succ_le hj1) hj2

/-- A catalog consisting of one unreadable item: the resulting build is
empty and the cursor advances past the skipped item. -/
def stv4w : ManagerState :=
  { last_file_submitted_index := -1, active_batches := [],
    source_files := [none], all_files_submitted := false }

theorem empty_batch_cursor_check :
    stv4w.source_files.getD 0 none = none :=
  empty_batch_cursor_skips_only_unreadable 0 10 5 stv4w true "b1" "validating" "f1" 0
    (by decide) 0 (by decide) (by decide)

/-- C5: a catalog item `k` that cannot be read or encoded is skipped, not
retried: a builder pass that reaches `k` (its committed cursor got at
least to `k - 1`) commits a cursor at least `k`, does not place `k` in the
built batch, and `k` never appears in any batch built from this catalog,
whatever the cursor. -/
theorem skip_on_error_progress (sys cap maxFiles : Nat) (st : ManagerState)
    (submit_ok : Bool) (bid cs fid : String) (now : Nat) (k : Nat)
    (hk_none : st.source_files.getD k none = none)
    (hk_len : k < st.source_files.length)
    (hk_after : st.last_file_submitted_index < (k : Int))
    (hns : st.all_files_submitted = false)
    (hreach : (k : Int) - 1
        ≤ (submit_new_batch sys cap maxFiles st submit_ok bid cs fid now).state.last_file_submitted_index) :
    (k : Int) ≤ (submit_new_batch sys cap maxFiles st submit_ok bid cs fid now).state.last_file_submitted_index
    ∧ k ∉ (submit_new_batch sys cap maxFiles st submit_ok bid cs fid now).batch
    ∧ ∀ (st' : ManagerState) (ok' : Bool) (bid' cs' fid' : String) (now' : Nat),
        st'.source_files = st.source_files →
        k ∉ (submit_new_batch sys cap maxFiles st' ok' bid' cs' fid' now').batch := by
  refine ⟨?_, ?_, ?_⟩
  · rw [submit_last_eq sys cap maxFiles st submit_ok bid cs fid now hns] at hreach ⊢
    unfold buildScan at hreach ⊢
    exact scan_reaches_unreadable sys cap maxFiles st.source_files k hk_len hk_none _ _ [] 0
      st.last_file_submitted_index rfl (int_lt_toNat_succ _) (toNat_succ_le hk_after) hreach
  · exact unreadable_not_in_batch sys cap maxFiles st submit_ok bid cs fid now k hk_none
  · intro st' ok' bid' cs' fid' now' hsrc
    exact unreadable_not_in_batch sys cap maxFiles st' ok' bid' cs' fid' now' k
      (by rw [hsrc]; exact hk_none)

/-- A catalog whose first unprocessed item is unreadable, followed by a
small readable item. -/
def stv5 : ManagerState :=
  { last_file_submitted_index := -1, active_batches := [],
    source_files := [none, some 1], all_files_submitted := false }

theorem skip_on_error_check :
    ((0 : Nat) : Int) ≤ (submit_new_batch 0 10 5 stv5 true "b1" "validating" "f1" 0).state.last_file_submitted_index
    ∧ 0 ∉ (submit_new_batch 0 10 5 stv5 true "b1" "validating" "f1" 0).batch
    ∧ ∀ (st' : ManagerState) (ok' : Bool) (bid' cs' fid' : String) (now' : Nat),
        st'.source_files = stv5.source_files →
        0 ∉ (submit_new_batch 0 10 5 st' ok' bid' cs' fid' now').batch :=
  skip_on_error_progress 0 10 5 stv5 true "b1" "validating" "f1" 0 0
    (by decide) (by decide) (by decide) (by decide) (by decide)

/-- A catalog where, after packing the readable item 0, the builder skips
the unreadable item 1 and then breaks on item 2, which does not fit. -/
def stv6 : ManagerState :=
  { last_file_submitted_index := -1, active_batches := [],
    source_files := [some 5, none, some 100], all_files_submitted := false }

/-- C6 counterexample: after a failed submission of a non-empty batch, the
committed `last_file_submitted_index` (here 1, the skipped unreadable
item) is not the index of the last item packed into the batch (here 0). -/
theorem failed_submit_cursor_not_last_packed :
    (submit_new_batch 0 10 5 stv6 false "b1" "validating" "f1" 0).batch.getLast? = some 0
    ∧ (submit_new_batch 0 10 5 stv6 false "b1" "validating" "f1" 0).state.last_file_submitted_index
        ≠ (0 : Int) := by
  decide

/-- C6 (amended): when a non-empty built batch fails to submit, the cursor
advance made while building is still committed — the state keeps a cursor
strictly beyond the pre-build cursor and at least the index of every item
packed into the unaccepted batch (it can exceed the last packed index when
trailing unreadable items were skipped) — and no batch record is added. -/
theorem failed_submit_commits_cursor (sys cap maxFiles : Nat) (st : ManagerState)
    (bid cs fid : String) (now : Nat)
    (hns : st.all_files_submitted = false)
    (hnb : (submit_new_batch sys cap maxFiles st false bid cs fid now).batch ≠ []) :
    (submit_new_batch sys cap maxFiles st false bid cs fid now).state.active_batches
        = st.active_batches
    ∧ st.last_file_submitted_index
        < (submit_new_batch sys cap maxFiles st false bid cs fid now).state.last_file_submitted_index
    ∧ ∀ j ∈ (submit_new_batch sys cap maxFiles st false bid cs fid now).batch,
        (j : Int) ≤ (submit_new_batch sys cap maxFiles st false bid cs fid now).state.last_file_submitted_index := by
  refine ⟨submit_failed_active sys cap maxFiles st bid cs fid now, ?_, ?_⟩
  · rw [submit_batch_eq sys cap maxFiles st false bid cs fid now hns] at hnb
    rw [submit_last_eq sys cap maxFiles st false bid cs fid now hns]
    unfold buildScan at hnb ⊢
    obtain ⟨j, hj⟩ := List.exists_mem_of_ne_nil _ hnb
    rcases scan_mem sys cap maxFiles _ _ [] 0 st.last_file_submitted_index
        (int_lt_toNat_succ _) j hj with h | ⟨h1, h2⟩
    · simp at h
    · have : st.last_file_submitted_index < (j : Int) := by
        have := int_lt_toNat_succ st.last_file_submitted_index
        have h1' : (((st.last_file_submitted_index + 1).toNat : Nat) : Int) ≤ (j : Int) := by
          exact_mod_cast h1
        omega
      omega
  · intro j hj
    rw [submit_batch_eq sys cap maxFiles st false bid cs fid now hns] at hj
    rw [submit_last_eq sys cap maxFiles st false bid cs fid now hns]
    unfold buildScan at hj ⊢
    rcases scan_mem sys cap maxFiles _ _ [] 0 st.last_file_submitted_index
        (int_lt_toNat_succ _) j hj with h | ⟨_, h2⟩
    · simp at h
    · exact h2

/-- A one-item catalog whose submission fails. -/
def stv6w : ManagerState :=
  { last_file_submitted_index := -1, active_batches := [],
    source_files := [some 5], all_files_submitted := false }

theorem failed_submit_commits_cursor_check :
    (submit_new_batch 0 10 5 stv6w false "b1" "validating" "f1" 0).state.active_batches
        = stv6w.active_batches
    ∧ stv6w.last_file_submitted_index
        < (submit_new_batch 0 10 5 stv6w false "b1" "validating" "f1" 0).state.last_file_submitted_index
    ∧ ∀ j ∈ (submit_new_batch 0 10 5 stv6w false "b1" "validating" "f1" 0).batch,
        (j : Int) ≤ (submit_new_batch 0 10 5 stv6w false "b1" "validating" "f1" 0).state.last_file_submitted_index :=
  failed_submit_commits_cursor 0 10 5 stv6w "b1" "validating" "f1" 0 (by decide) (by decide)

/-! ## Facts about `get_current_queue_size` -/

/-- What one tracked record contributes to the refreshed queue size: its
committed cost when its status query fails or reports it active, nothing
otherwise. -/
def recordContribution (query : String → Option String)
    (p : String × BatchRecord) : Nat :=
  match query p.1 with
  | none => p.2.total_tokens
  | some s => if s ∈ activeStatuses then p.2.total_tokens else 0

theorem queue_total (query : String → Option String) :
    ∀ m : List (String × BatchRecord),
      (get_current_queue_size query m).2 = (m.map (recordContribution query)).sum := by
  intro m
  induction m with
  | nil => simp [get_current_queue_size]
  | cons p rest ih =>
    obtain ⟨bid, rc⟩ := p
    simp only [get_current_queue_size, List.map_cons, List.sum_cons]
    cases hq : query bid with
    | none => simp [recordContribution, hq, ih]
    | some s =>
      by_cases ha : s ∈ activeStatuses
      · simp [recordContribution, hq, ha, ih]
      · by_cases ht : s ∈ terminalStatuses
        · simp [recordContribution, hq, ha, ht, ih]
        · simp [recordContribution, hq, ha, ht, ih]

theorem queue_mem_active (query : String → Option String) :
    ∀ (m : List (String × BatchRecord)) (bid : String) (rc : BatchRecord) (s : String),
      (bid, rc) ∈ m → query bid = some s → s ∈ activeStatuses →
      (bid, { rc with status := s }) ∈ (get_current_queue_size query m).1 := by
  intro m
  induction m with
  | nil => intro bid rc s hm; simp at hm
  | cons p rest ih =>
    intro bid rc s hm hq ha
    obtain ⟨b', r'⟩ := p
    rcases List.mem_cons.1 hm with heq | htl
    · rw [Prod.mk.injEq] at heq
      obtain ⟨hb, hr⟩ := heq
      subst hb
      subst hr
      simp only [get_current_queue_size, hq, if_pos ha]
      exact List.mem_cons_self _ _
    · have hrec := ih bid rc s htl hq ha
      cases hq' : query b' with
      | none =>
        simp only [get_current_queue_size, hq']
        exact List.mem_cons_of_mem _ hrec
      | some s' =>
        simp only [get_current_queue_size, hq']
        by_cases ha' : s' ∈ activeStatuses
        · simp only [if_pos ha']
          exact List.mem_cons_of_mem _ hrec
        · by_cases ht' : s' ∈ terminalStatuses
          · simp only [if_neg ha', if_pos ht']
            exact hrec
          · simp only [if_neg ha', if_neg ht']
            exact List.mem_cons_of_mem _ hrec

theorem queue_mem_failed (query : String → Option String) :
    ∀ (m : List (String × BatchRecord)) (bid : String) (rc : BatchRecord),
      (bid, rc) ∈ m → query bid = none →
      (bid, rc) ∈ (get_current_queue_size query m).1 := by
  intro m
  induction m with
  | nil => intro bid rc hm; simp at hm
  | cons p rest ih =>
    intro bid rc hm hq
    obtain ⟨b', r'⟩ := p
    rcases List.mem_cons.1 hm with heq | htl
    · rw [Prod.mk.injEq] at heq
      obtain ⟨hb, hr⟩ := heq
      subst hb
      subst hr
      simp only [get_current_queue_size, hq]
      exact List.mem_cons_self _ _
    · have hrec := ih bid rc htl hq
      cases hq' : query b' with
      | none =>
        simp only [get_current_queue_size, hq']
        exact List.mem_cons_of_mem _ hrec
      | some s' =>
        simp only [get_current_queue_size, hq']
        by_cases ha' : s' ∈ activeStatuses
        · simp only [if_pos ha']
          exact List.mem_cons_of_mem _ hrec
        · by_cases ht' : s' ∈ terminalStatuses
          · simp only [if_neg ha', if_pos ht']
            exact hrec
          · simp only [if_neg ha', if_neg ht']
            exact List.mem_cons_of_mem _ hrec

theorem active_not_terminal {s : String} (h : s ∈ activeStatuses) :
    s ∉ terminalStatuses := by
  simp only [activeStatuses, List.mem_cons, List.not_mem_nil, or_false] at h
  rcases h with rfl | rfl | rfl <;> decide

/-- A key that survives a refresh was not observed terminal: its query
either failed or returned a non-terminal status. -/
theorem refresh_mem_keys (query : String → Option String) :
    ∀ (m : List (String × BatchRecord)) (bid : String),
      bid ∈ (get_current_queue_size query m).1.map Prod.fst →
      ¬ ∃ s, query bid = some s ∧ s ∈ terminalStatuses := by
  intro m
  induction m with
  | nil => intro bid hm; simp [get_current_queue_size] at hm
  | cons p rest ih =>
    intro bid hm
    obtain ⟨b', r'⟩ := p
    rintro ⟨s, hq, ht⟩
    cases hq' : query b' with
    | none =>
      simp only [get_current_queue_size, hq', List.map_cons, List.mem_cons] at hm
      rcases hm with hb | hm
      · subst hb
        rw [hq'] at hq
        exact Option.noConfusion hq
      · exact ih bid hm ⟨s, hq, ht⟩
    | some s' =>
      simp only [get_current_queue_size, hq'] at hm
      by_cases ha' : s' ∈ activeStatuses
      · rw [if_pos ha'] at hm
        simp only [List.map_cons, List.mem_cons] at hm
        rcases hm with hb | hm
        · subst hb
          rw [hq'] at hq
          cases hq
          exact active_not_terminal ha' ht
        · exact ih bid hm ⟨s, hq, ht⟩
      · by_cases ht' : s' ∈ terminalStatuses
        · rw [if_neg ha', if_pos ht'] at hm
          exact ih bid hm ⟨s, hq, ht⟩
        · rw [if_neg ha', if_neg ht'] at hm
          simp only [List.map_cons, List.mem_cons] at hm
          rcases hm with hb | hm
          · subst hb
            rw [hq'] at hq
            cases hq
            exact ht' ht
          · exact ih bid hm ⟨s, hq, ht⟩

/-- C3: for every tracked-batch map, one refresh returns a total in which
a record whose refreshed status is ACTIVE contributes its committed cost
(and is kept, with its status updated), a record whose refreshed status is
TERMINAL is removed from the map and contributes nothing, and a record
whose status query fails stays in the map unchanged and still contributes
its committed cost — the returned total is exactly the sum of these
per-record contributions. -/
theorem refresh_accounting (query : String → Option String)
    (m : List (String × BatchRecord)) :
    (get_current_queue_size query m).2 = (m.map (recordContribution query)).sum
    ∧ (∀ bid rc s, (bid, rc) ∈ m → query bid = some s → s ∈ activeStatuses →
        (bid, { rc with status := s }) ∈ (get_current_queue_size query m).1)
    ∧ (∀ bid rc s, (bid, rc) ∈ m → query bid = some s → s ∈ terminalStatuses →
        bid ∉ (get_current_queue_size query m).1.map Prod.fst)
    ∧ (∀ bid rc, (bid, rc) ∈ m → query bid = none →
        (bid, rc) ∈ (get_current_queue_size query m).1) := by
  refine ⟨queue_total query m, ?_, ?_, ?_⟩
  · intro bid rc s hm hq ha
    exact queue_mem_active query m bid rc s hm hq ha
  · intro bid rc s _ hq ht hmem
    exact refresh_mem_keys query m bid hmem ⟨s, hq, ht⟩
  · intro bid rc hm hq
    exact queue_mem_failed query m bid rc hm hq

/-- A status oracle covering all four refresh behaviours. -/
def qv3 : String → Option String := fun bid =>
  if bid = "a" then some "in_progress"
  else if bid = "b" then some "completed"
  else if bid = "c" then none
  else some "odd_status"

/-- A tracked record with committed cost `n`. -/
def rv3 (n : Nat) : BatchRecord :=
  { status := "validating", submitted_at := 0, input_file_id := "f", total_tokens := n,
    file_count := 1 }

def mv3 : List (String × BatchRecord) :=
  [("a", rv3 3), ("b", rv3 5), ("c", rv3 7), ("d", rv3 9)]

theorem refresh_accounting_check :
    (get_current_queue_size qv3 mv3).2 = (mv3.map (recordContribution qv3)).sum
    ∧ (∀ bid rc s, (bid, rc) ∈ mv3 → qv3 bid = some s → s ∈ activeStatuses →
        (bid, { rc with status := s }) ∈ (get_current_queue_size qv3 mv3).1)
    ∧ (∀ bid rc s, (bid, rc) ∈ mv3 → qv3 bid = some s → s ∈ terminalStatuses →
        bid ∉ (get_current_queue_size qv3 mv3).1.map Prod.fst)
    ∧ (∀ bid rc, (bid, rc) ∈ mv3 → qv3 bid = none →
        (bid, rc) ∈ (get_current_queue_size qv3 mv3).1) :=
  refresh_accounting qv3 mv3

/-! ## Dictionary and set lemmas -/

theorem dictInsert_nil {α : Type} (k : String) (v : α) :
    dictInsert [] k v = [(k, v)] := rfl

theorem dictInsert_cons {α : Type} (a : String) (x : α) (tl : List (String × α))
    (k : String) (v : α) :
    dictInsert ((a, x) :: tl) k v =
      if a = k then (k, v) :: tl.map (fun p => if p.1 == k then (k, v) else p)
      else (a, x) :: dictInsert tl k v := by
  by_cases hak : a = k
  · subst hak
    rw [if_pos rfl]
    simp [dictInsert]
  · rw [if_neg hak]
    have hbeq : (a == k) = false := by simp [hak]
    by_cases htl : tl.any (fun p => p.1 == k)
    · simp [dictInsert, hbeq, htl, hak]
    · simp [dictInsert, hbeq, htl, hak]

theorem dictLookup_cons {α : Type} (a : String) (x : α) (tl : List (String × α))
    (k' : String) :
    dictLookup ((a, x) :: tl) k' = if a = k' then some x else dictLookup tl k' := by
  by_cases h : a = k'
  · subst h
    rw [if_pos rfl]
    unfold dictLookup
    rw [List.find?_cons_of_pos _ (by simp)]
    rfl
  · rw [if_neg h]
    unfold dictLookup
    rw [List.find?_cons_of_neg _ (by simp [h])]

theorem dictLookup_map_overwrite {α : Type} (k : String) (v : α) {k' : String}
    (h : k' ≠ k) :
    ∀ tl : List (String × α),
      dictLookup (tl.map (fun p => if p.1 == k then (k, v) else p)) k'
        = dictLookup tl k' := by
  intro tl
  induction tl with
  | nil => rfl
  | cons p tl ih =>
    obtain ⟨b, y⟩ := p
    by_cases hbk : b = k
    · subst hbk
      simp only [List.map_cons]
      rw [show (if ((b, y).1 == b) then (b, v) else (b, y)) = (b, v) from by simp]
      rw [dictLookup_cons, dictLookup_cons,
        if_neg (fun hh : b = k' => h hh.symm), if_neg (fun hh : b = k' => h hh.symm)]
      exact ih
    · simp only [List.map_cons]
      rw [show (if ((b, y).1 == k) then (k, v) else (b, y)) = (b, y) from by simp [hbk]]
      rw [dictLookup_cons, dictLookup_cons]
      by_cases hb' : b = k'
      · rw [if_pos hb', if_pos hb']
      · rw [if_neg hb', if_neg hb', ih]

/-- Looking up `k'` after a Python-style dict assignment `m[k] = v`. -/
theorem dictLookup_dictInsert {α : Type} (k : String) (v : α) (k' : String) :
    ∀ m : List (String × α),
      dictLookup (dictInsert m k v) k' = if k' = k then some v else dictLookup m k' := by
  intro m
  induction m with
  | nil =>
    rw [dictInsert_nil, dictLookup_cons]
    by_cases h : k' = k
    · rw [if_pos h.symm, if_pos h]
    · rw [if_neg (fun hh : k = k' => h hh.symm), if_neg h]
  | cons p tl ih =>
    obtain ⟨a, x⟩ := p
    rw [dictInsert_cons]
    by_cases hak : a = k
    · subst hak
      rw [if_pos rfl, dictLookup_cons]
      by_cases hk' : a = k'
      · rw [if_pos hk', if_pos hk'.symm]
      · rw [if_neg hk', if_neg (fun hh : k' = a => hk' hh.symm)]
        rw [dictLookup_map_overwrite a v (fun hh : k' = a => hk' hh.symm) tl]
        rw [dictLookup_cons, if_neg hk']
    · rw [if_neg hak, dictLookup_cons]
      by_cases hak' : a = k'
      · have hkk : ¬ k' = k := fun hh => hak (by rw [hak', hh])
        rw [if_pos hak', if_neg hkk, dictLookup_cons, if_pos hak']
      · rw [if_neg hak', ih]
        by_cases hkk : k' = k
        · rw [if_pos hkk, if_pos hkk]
        · rw [if_neg hkk, if_neg hkk, dictLookup_cons, if_neg hak']

theorem dictUpdate_single {α : Type} (m : List (String × α)) (k : String) (v : α) :
    dictUpdate m [(k, v)] = dictInsert m k v := rfl

theorem mem_setAdd (x b : String) (p : List String) :
    x ∈ setAdd p b ↔ x ∈ p ∨ x = b := by
  by_cases h : b ∈ p
  · have hc : p.contains b = true := by simpa using h
    simp only [setAdd, hc, if_true]
    constructor
    · exact Or.inl
    · rintro (hx | rfl)
      · exact hx
      · exact h
  · have hc : p.contains b = false := by simpa using h
    simp [setAdd, hc, h]

theorem mem_foldl_setAdd :
    ∀ (l : List String) (p : List String) (x : String),
      x ∈ l.foldl setAdd p ↔ x ∈ p ∨ x ∈ l := by
  intro l
  induction l with
  | nil => intro p x; simp
  | cons b t ih =>
    intro p x
    simp only [List.foldl_cons]
    rw [ih, mem_setAdd]
    simp only [List.mem_cons]
    tauto

/-! ## Facts about the reconciler -/

theorem mem_get_new {α : Type} (env : ReconEnv α) (ids processed : List String)
    (bid : String) :
    bid ∈ get_new_completed_batches env ids processed ↔
      bid ∈ ids ∧ bid ∉ processed ∧ env.status bid = some "completed" := by
  simp [get_new_completed_batches, List.mem_filter]

theorem reconFold_snd {α : Type} (env : ReconEnv α) :
    ∀ (l : List String) (a : List (String × α)) (p : List String),
      (l.foldl (reconStep env) (a, p)).2 = l.foldl setAdd p := by
  intro l
  induction l with
  | nil => intro a p; rfl
  | cons b t ih =>
    intro a p
    simp only [List.foldl_cons, reconStep]
    exact ih _ _

theorem run_processed_eq {α : Type} (env : ReconEnv α) (now : Nat)
    (ids processed : List String) (store : ResultStore α) :
    (runReconciler env now ids processed store).1
      = (get_new_completed_batches env ids processed).foldl setAdd processed := by
  simp only [runReconciler]
  by_cases hE : (get_new_completed_batches env ids processed).isEmpty
  · rw [if_pos hE, List.isEmpty_iff.mp hE]
    rfl
  · rw [if_neg hE]
    split_ifs
    · exact reconFold_snd env _ [] processed
    · exact reconFold_snd env _ [] processed

theorem run_of_no_new {α : Type} (env : ReconEnv α) (now : Nat)
    (ids q : List String) (s' : ResultStore α)
    (h : get_new_completed_batches env ids q = []) :
    runReconciler env now ids q s' = (q, s') := by
  simp [runReconciler, h]

/-- C7: a batch handle already in the processed-batch set is skipped
entirely by a reconciler run, and running the reconciler a second time
against an unchanged submission state — every completed batch having been
recorded as processed by the first run — changes neither the processed set
nor the result store: reconciliation is idempotent and each handle is
processed at most once. -/
theorem reconcile_idempotent {α : Type} (env : ReconEnv α) (now now' : Nat)
    (ids processed : List String) (store : ResultStore α) :
    (∀ bid ∈ processed, bid ∉ get_new_completed_batches env ids processed)
    ∧ runReconciler env now' ids (runReconciler env now ids processed store).1
        (runReconciler env now ids processed store).2
      = runReconciler env now ids processed store := by
  constructor
  · intro bid hb hmem
    exact ((mem_get_new env ids processed bid).1 hmem).2.1 hb
  · have hempty2 : get_new_completed_batches env ids
        (runReconciler env now ids processed store).1 = [] := by
      rw [List.eq_nil_iff_forall_not_mem]
      intro bid hmem
      rw [mem_get_new] at hmem
      obtain ⟨hin, hnp1, hst⟩ := hmem
      apply hnp1
      rw [run_processed_eq, mem_foldl_setAdd]
      by_cases hp : bid ∈ processed
      · exact Or.inl hp
      · exact Or.inr ((mem_get_new env ids processed bid).2 ⟨hin, hp, hst⟩)
    rw [run_of_no_new env now' ids _ _ hempty2]

/-- An environment and store used to check the reconciler claims. -/
def env7 : ReconEnv Nat :=
  { status := fun _ => some "completed", fetch := fun _ => .content [.ok "k" 1] }

def store0 : ResultStore Nat :=
  { results := [], last_updated := 0, total_files_processed := 0 }

theorem reconcile_idempotent_check :
    (∀ bid ∈ ["b0"], bid ∉ get_new_completed_batches env7 ["b0", "b1"] ["b0"])
    ∧ runReconciler env7 1 ["b0", "b1"] (runReconciler env7 0 ["b0", "b1"] ["b0"] store0).1
        (runReconciler env7 0 ["b0", "b1"] ["b0"] store0).2
      = runReconciler env7 0 ["b0", "b1"] ["b0"] store0 :=
  reconcile_idempotent env7 0 1 ["b0", "b1"] ["b0"] store0

/-- An environment in which every status query reports completion but
every result fetch raises. -/
def env8 : ReconEnv Nat :=
  { status := fun _ => some "completed", fetch := fun _ => .fetchError }

/-- C8 counterexample: batch "b" is completed but its result fetch fails;
after the reconciler run, "b" is nonetheless recorded in the processed
set, contradicting the claim that a batch whose result fetch failed is not
recorded as processed. -/
theorem fetch_failure_marked_processed :
    "b" ∈ (runReconciler env8 0 ["b"] [] store0).1 := by
  decide

/-- C8 (amended): when fetching a completed batch's result payload fails,
the error is only logged (the batch contributes no entries to the merge
and the store keeps its prior contents for every identity), but the batch
IS recorded in the processed set, so subsequent invocations skip it: the
fetch is not retried and that batch's results are never merged. -/
theorem fetch_failure_only_logged_but_processed {α : Type} (env : ReconEnv α)
    (now : Nat) (ids processed : List String) (store : ResultStore α) (b : String)
    (hb : b ∈ ids) (hnp : b ∉ processed)
    (hst : env.status b = some "completed")
    (hf : env.fetch b = .fetchError) :
    process_batch_result env b = []
    ∧ b ∈ (runReconciler env now ids processed store).1
    ∧ b ∉ get_new_completed_batches env ids (runReconciler env now ids processed store).1 := by
  have hmem : b ∈ get_new_completed_batches env ids processed :=
    (mem_get_new env ids processed b).2 ⟨hb, hnp, hst⟩
  have hp1 : b ∈ (runReconciler env now ids processed store).1 := by
    rw [run_processed_eq]
    exact (mem_foldl_setAdd _ processed b).2 (Or.inr hmem)
  refine ⟨by simp [process_batch_result, hf], hp1, ?_⟩
  intro hmem2
  rw [mem_get_new] at hmem2
  exact hmem2.2.1 hp1

theorem fetch_failure_check :
    process_batch_result env8 "b" = []
    ∧ "b" ∈ (runReconciler env8 0 ["b"] [] store0).1
    ∧ "b" ∉ get_new_completed_batches env8 ["b"] (runReconciler env8 0 ["b"] [] store0).1 :=
  fetch_failure_only_logged_but_processed env8 0 ["b"] [] store0 "b"
    (by decide) (by decide) (by decide) (by decide)

/-- C9: when two result payloads carrying the same work-item identity are
merged from two different batches, the reconciled store holds exactly the
payload merged second (last-writer-wins), and every other identity keeps
exactly the value it had in the store before the merge. -/
theorem last_writer_wins {α : Type} (env : ReconEnv α) (now : Nat)
    (store : ResultStore α) (b1 b2 k : String) (v1 v2 : α)
    (_hne : b1 ≠ b2)
    (h1 : env.status b1 = some "completed") (h2 : env.status b2 = some "completed")
    (hf1 : env.fetch b1 = .content [.ok k v1])
    (hf2 : env.fetch b2 = .content [.ok k v2]) :
    dictLookup (runReconciler env now [b1, b2] [] store).2.results k = some v2
    ∧ ∀ k' : String, k' ≠ k →
        dictLookup (runReconciler env now [b1, b2] [] store).2.results k'
          = dictLookup store.results k' := by
  have hnb : get_new_completed_batches env [b1, b2] ([] : List String) = [b1, b2] := by
    simp [get_new_completed_batches, h1, h2]
  have hpb1 : process_batch_result env b1 = [(k, v1)] := by
    simp [process_batch_result, hf1, dictInsert_nil]
  have hpb2 : process_batch_result env b2 = [(k, v2)] := by
    simp [process_batch_result, hf2, dictInsert_nil]
  have hu1 : dictUpdate ([] : List (String × α)) [(k, v1)] = [(k, v1)] := by
    simp [dictUpdate, dictInsert_nil]
  have hu2 : dictUpdate [(k, v1)] [(k, v2)] = [(k, v2)] := by
    rw [dictUpdate_single, dictInsert_cons, if_pos rfl]
    simp
  have hrun : (runReconciler env now [b1, b2] [] store).2.results
      = dictInsert store.results k v2 := by
    simp only [runReconciler, hnb]
    rw [if_neg (by simp)]
    simp only [List.foldl_cons, List.foldl_nil, reconStep, hpb1, hpb2, hu1, hu2]
    rw [if_neg (by simp)]
    simp [dictUpdate_single]
  constructor
  · rw [hrun, dictLookup_dictInsert, if_pos rfl]
  · intro k' hk'
    rw [hrun, dictLookup_dictInsert, if_neg hk']

/-- Two completed batches each carrying a payload for identity "k". -/
def env9 : ReconEnv Nat :=
  { status := fun _ => some "completed",
    fetch := fun bid => if bid = "b1" then .content [.ok "k" 1] else .content [.ok "k" 2] }

theorem last_writer_wins_check :
    dictLookup (runReconciler env9 0 ["b1", "b2"] [] store0).2.results "k" = some 2
    ∧ ∀ k' : String, k' ≠ "k" →
        dictLookup (runReconciler env9 0 ["b1", "b2"] [] store0).2.results k'
          = dictLookup store0.results k' :=
  last_writer_wins env9 0 store0 "b1" "b2" "k" 1 2
    (by decide) (by decide) (by decide) (by decide) (by decide)

theorem reconFold_congr {α : Type} (env env' : ReconEnv α) :
    ∀ l : List String,
      (∀ b ∈ l, process_batch_result env' b = process_batch_result env b) →
      ∀ init : List (String × α) × List String,
        l.foldl (reconStep env') init = l.foldl (reconStep env) init := by
  intro l
  induction l with
  | nil => intro _ init; rfl
  | cons b t ih =>
    intro hp init
    simp only [List.foldl_cons]
    rw [show reconStep env' init b = reconStep env init b from by
      simp [reconStep, hp b (List.mem_cons_self b t)]]
    exact ih (fun x hx => hp x (List.mem_cons_of_mem b hx)) _

/-- When a handle is not among the candidate ids, the reconciler's outcome
does not depend on what fetching that handle would return. -/
theorem run_fetch_irrelevant {α : Type} (env : ReconEnv α) (hdl : String)
    (alt : FetchOutcome α) (now : Nat) (ids processed : List String)
    (store : ResultStore α) (hni : hdl ∉ ids) :
    runReconciler { env with fetch := Function.update env.fetch hdl alt } now ids processed store
      = runReconciler env now ids processed store := by
  have hgn : get_new_completed_batches
      { env with fetch := Function.update env.fetch hdl alt } ids processed
      = get_new_completed_batches env ids processed := rfl
  have hproc : ∀ b ∈ get_new_completed_batches env ids processed,
      process_batch_result { env with fetch := Function.update env.fetch hdl alt } b
        = process_batch_result env b := by
    intro b hb
    have hbids : b ∈ ids := ((mem_get_new env ids processed b).1 hb).1
    have hbne : b ≠ hdl := fun hh => hni (hh ▸ hbids)
    simp [process_batch_result, Function.update_noteq hbne]
  simp only [runReconciler, hgn]
  by_cases hE : (get_new_completed_batches env ids processed).isEmpty
  · rw [if_pos hE, if_pos hE]
  · rw [if_neg hE, if_neg hE]
    rw [reconFold_congr env { env with fetch := Function.update env.fetch hdl alt }
      _ hproc ([], processed)]

/-- C10: a batch handle that the submission loop's refresh observes as
terminal is deleted from the tracked map, and — because the reconciler's
candidate set is exactly the keys of that map — no reconciler run over the
refreshed submission state ever fetches or merges that batch's results:
the reconciler's outcome is independent of what fetching the deleted
handle would return. -/
theorem terminal_batch_never_reconciled {α : Type} (query : String → Option String)
    (m : List (String × BatchRecord)) (hdl : String) (rc : BatchRecord) (s : String)
    (_hm : (hdl, rc) ∈ m) (hq : query hdl = some s) (hterm : s ∈ terminalStatuses)
    (env : ReconEnv α) (alt : FetchOutcome α) (now : Nat)
    (processed : List String) (store : ResultStore α) :
    hdl ∉ (get_current_queue_size query m).1.map Prod.fst
    ∧ runReconciler { env with fetch := Function.update env.fetch hdl alt } now
        ((get_current_queue_size query m).1.map Prod.fst) processed store
      = runReconciler env now ((get_current_queue_size query m).1.map Prod.fst) processed store := by
  have hout : hdl ∉ (get_current_queue_size query m).1.map Prod.fst :=
    fun hmem => refresh_mem_keys query m hdl hmem ⟨s, hq, hterm⟩
  exact ⟨hout, run_fetch_irrelevant env hdl alt now _ processed store hout⟩

/-- A tracker map holding a terminal batch "h" and an active batch "g". -/
def qv10 : String → Option String := fun bid =>
  if bid = "h" then some "completed" else some "in_progress"

def mv10 : List (String × BatchRecord) := [("h", rv3 3), ("g", rv3 5)]

def env10 : ReconEnv Nat :=
  { status := fun _ => some "completed", fetch := fun _ => .content [] }

theorem terminal_batch_never_reconciled_check :
    "h" ∉ (get_current_queue_size qv10 mv10).1.map Prod.fst
    ∧ runReconciler { env10 with fetch := Function.update env10.fetch "h" .fetchError } 0
        ((get_current_queue_size qv10 mv10).1.map Prod.fst) [] store0
      = runReconciler env10 0 ((get_current_queue_size qv10 mv10).1.map Prod.fst) [] store0 :=
  terminal_batch_never_reconciled qv10 mv10 "h" (rv3 3) "completed"
    (by decide) (by decide) (by decide) env10 .fetchError 0 [] store0

end CNDocsSeg
